import Mathlib

/-
Verification of the nytl callback/connection machinery
(src/nytl/callback.hpp, src/nytl/connection.hpp).

The model below is a shallow embedding of the source as it stands.  The
source snapshot is mid-refactor from a vector-of-slots registry to an
intrusive singly linked list, and a few expressions are leftovers of the
old representation; every such place is flagged by a comment at the
corresponding definition, together with the reading used.

Representation choices:
- A `CallbackSlot` chain (`slots_`, linked through `next`) is modelled as
  `List Slot`.  Node identity (`CallbackSlot*` addresses, compared by
  `checkErase`) is modelled by a per-node `addr` field, allocated from the
  same counter as the id, hence unique per node.
- `ConnectionID.value` is a `Nat`; value 0 is the reset/invalid value
  (`reset` writes 0, `valid` tests nonzero).
- The chain of `CallIter` frames on the stack (`callIter_` pointing to the
  innermost, linked through `above`) is modelled as `List CallIter`,
  innermost first.  Pushing a frame is consing, `iter = stackIter.above`
  is dropping the head.
- Listener invocation: a registered function is named by a `Nat` token
  (`Slot.fn`); an environment `Env` maps the token and the call argument
  to the behaviour of that invocation, expressed in the small syntax
  `Act`: return a value, raise (std::function call that throws), cancel a
  registration on the same callback and continue, or reenter `call` on
  the same callback with some argument and continue.  Arguments and
  return values are `Nat`.  This covers the listener abilities the
  source documents: disconnecting from within a call (via the passed
  Connection or any stored one) and nested calls.
- C++ exceptions are `Except.error`; the interpreter is total via a fuel
  parameter (`none` = fuel exhausted, never produced on the runs the
  theorems speak about).
- The `TrackedConnectionID` shared cell (`std::shared_ptr<std::size_t>`)
  is modelled by a separate small heap `Store : Nat → Nat` of cells
  addressed by `Nat`, with `Option Nat` as the possibly-null pointer.
-/

namespace NytlCb

/-- Behaviour of one listener invocation, see the header comment. -/
inductive Act : Type where
  | ret (v : Nat)
  | raise
  | cancel (cid : Nat) (k : Act)
  | nest (arg : Nat) (k : Act)
deriving Repr, DecidableEq

/-- Listener table: function token → call argument → behaviour. -/
abbrev Env := Nat → Nat → Act

/-- One `CallbackSlot` node: `addr` models the node address (unique,
allocated together with the id), `id` the stored `ConnectionID.value`
(0 after a reset), `fn` the registered function. -/
structure Slot : Type where
  addr : Nat
  id : Nat
  fn : Nat
deriving Repr, DecidableEq

/-- One `CallIter` frame.  `current` is the index cursor the call loop in
`detail::CallbackCall` reads and bumps (`stackIter.current`); the class
version of `CallIter` in the snapshot dropped this field, one of the
mid-refactor inconsistencies.  `nextp` is the `CallbackSlot* next`
pointer field that `checkErase` compares and rewrites; it starts null
(`{}`) and, as proved below, the loop never reads it. -/
structure CallIter : Type where
  current : Nat
  nextp : Option Nat
deriving Repr, DecidableEq

/-- The mutable state of one `Callback` object: `highestID_`, the slot
chain `slots_`, and the frame chain reached from `callIter_`
(innermost first; `[]` is `callIter_ == nullptr`). -/
structure CbState : Type where
  highestID : Nat
  slots : List Slot
  frames : List CallIter
deriving Repr, DecidableEq

/-- The freshly constructed callback. -/
def emptyCb : CbState := ⟨0, [], []⟩

/-- Model of `CallIter::checkErase(slot)`: each frame, from the innermost out
through the `above` chain, compares the erased node against its own
`nextp` and, on a hit, redirects to the successor of the erased node
(`slot->next`, read before unlinking and passed here as `succ`). -/
def checkEraseAll (frames : List CallIter) (addr : Nat) (succ : Option Nat) :
    List CallIter :=
  frames.map fun fr => if fr.nextp = some addr then { fr with nextp := succ } else fr

/-- The scan loop of `Callback::disconnect` (the `// iterate` part): walk
`it` over the chain while `it` and `it->next` exist; when `it->next->id`
matches, the source resets `it->id` — the id of the predecessor, not of
the matched node — does not unlink anything, and returns true.  (The
`callIter_->checkErase(it - slots_.begin())` call on this path is a
leftover of the vector representation — `slots_` is a plain pointer and
has no `begin()` — so no frame repair has a meaning here and the frames
are left untouched.) -/
def discIter (cid : Nat) : List Slot → List Slot × Bool
  | [] => ([], false)
  | [s] => ([s], false)
  | s :: t :: rest =>
    if t.id = cid then ({ s with id := 0 } :: t :: rest, true)
    else
      let r := discIter cid (t :: rest)
      (s :: r.1, r.2)

/-- Model of `Callback::disconnect(id)`.  Returns false for the reset id value or
an empty chain.  If the head matches (`// first`): every frame is
notified via `checkErase` (only when `callIter_` is nonnull in the
source; with no frames the notification is a no-op either way), the head
id is reset, the head is unlinked and deleted — and control falls
through into the scan loop without returning, so the scan runs on the
shortened chain.  Otherwise only the scan loop runs. -/
def disconnectS (st : CbState) (cid : Nat) : CbState × Bool :=
  if cid = 0 then (st, false)
  else
    match st.slots with
    | [] => (st, false)
    | s :: rest =>
      let sf : List Slot × List CallIter :=
        if s.id = cid then
          (rest, checkEraseAll st.frames s.addr ((rest.head?).map Slot.addr))
        else (s :: rest, st.frames)
      let r := discIter cid sf.1
      ({ st with slots := r.1, frames := sf.2 }, r.2)

/-- Model of `Callback::emplace` followed by the function assignment in
`Callback::add`: allocate `++highestID_`, append a fresh node carrying
that id at the tail of the chain, store the function there.  (`add`
writes the function through `slots_.back()`, again vector-era spelling
for the node `emplace` just appended.)  The returned connection id is
the new `highestID_`. -/
def addS (st : CbState) (fn : Nat) : CbState :=
  let nid := st.highestID + 1
  { st with highestID := nid, slots := st.slots ++ [⟨nid, nid, fn⟩] }

/-- Model of `Callback::clear()`: reset the id of every slot (written as a
range-for over `slots_` in the source, i.e. a walk over every node of
the chain), then drop the whole chain.  `callIter_` and the frames are
not touched and `checkErase` is not called. -/
def clearS (st : CbState) : CbState :=
  { st with slots := [] }

/-- Index cursor of the innermost frame (`stackIter.current` through the
reference `idx`); 0 when no frame exists (the loop is only ever entered
with the frame it just pushed). -/
def headIdx (st : CbState) : Nat := ((st.frames.head?).map CallIter.current).getD 0

/-- Increment (`++idx`) the cursor of the innermost frame. -/
def bumpHead : List CallIter → List CallIter
  | [] => []
  | fr :: rest => { fr with current := fr.current + 1 } :: rest

mutual

/-- Run one listener behaviour.  `cancel` goes through
`Callback::disconnect` on the same object and continues; `nest` reenters
`call` and, if the nested call returned normally, continues (a raise
inside the nested call propagates out of this listener at once).
Result: final state, trace of (connection id passed to the listener,
argument) invocation events that happened inside, and the produced value
or the propagating exception. -/
def runAct (env : Env) (fuel : Nat) (st : CbState) (a : Act) :
    Option (CbState × List (Nat × Nat) × Except Unit Nat) :=
  match fuel, a with
  | _, .ret v => some (st, [], Except.ok v)
  | _, .raise => some (st, [], Except.error ())
  | 0, .cancel _ _ => none
  | f + 1, .cancel cid k => runAct env f (disconnectS st cid).1 k
  | 0, .nest _ _ => none
  | f + 1, .nest arg k =>
    match callS env f st arg with
    | none => none
    | some (st', tr, Except.error e) => some (st', tr, Except.error e)
    | some (st', tr, Except.ok _) =>
      match runAct env f st' k with
      | none => none
      | some (st'', tr', r) => some (st'', tr ++ tr', r)
termination_by structural fuel

/-- Model of `Callback::call` via `detail::CallbackCall<Ret>::call`: push a fresh
`CallIter` (null `next`, index 0) in front of the current `callIter_`
chain, run the loop, and on normal exit pop the frame again
(`iter = stackIter.above`).  There is no scope guard: when the loop
exits with an exception, the assignment restoring `callIter_` does not
run, so the dead frame stays in front of the chain. -/
def callS (env : Env) (fuel : Nat) (st : CbState) (arg : Nat) :
    Option (CbState × List (Nat × Nat) × Except Unit (List Nat)) :=
  match fuel with
  | 0 => none
  | f + 1 =>
    let st1 : CbState := { st with frames := ⟨0, none⟩ :: st.frames }
    match loopS env f st1 arg [] [] with
    | none => none
    | some (st2, tr, Except.error e) => some (st2, tr, Except.error e)
    | some (st2, tr, Except.ok rs) =>
      some ({ st2 with frames := st2.frames.tail }, tr, Except.ok rs)
termination_by structural fuel

/-- The dispatch loop: `while (idx < slots.size())` — re-read on every
round, the loop sees removals performed by the listeners — capture
`slots[idx]`, `++idx` on the own frame strictly before invoking, then
invoke the captured slot function with a connection handle carrying the
captured slot id and the caller argument (the `(slot.id, arg)` trace
event), and append the returned value to `ret`.  A raise propagates out
of the loop at once, carrying the events already produced. -/
def loopS (env : Env) (fuel : Nat) (st : CbState) (arg : Nat)
    (acc : List Nat) (tr : List (Nat × Nat)) :
    Option (CbState × List (Nat × Nat) × Except Unit (List Nat)) :=
  if headIdx st < st.slots.length then
    match fuel with
    | 0 => none
    | f + 1 =>
      let slot := st.slots.getD (headIdx st) ⟨0, 0, 0⟩
      let st1 : CbState := { st with frames := bumpHead st.frames }
      match runAct env f st1 (env slot.fn arg) with
      | none => none
      | some (st2, tr2, Except.error e) =>
        some (st2, tr ++ (slot.id, arg) :: tr2, Except.error e)
      | some (st2, tr2, Except.ok v) =>
        loopS env f st2 arg (acc ++ [v]) (tr ++ (slot.id, arg) :: tr2)
  else some (st, tr, Except.ok acc)
termination_by structural fuel

end

/-! Registry operation sequences, for the id-allocation invariants.  The
call engine above changes the slot chain and `highestID_` only through
`disconnectS` (the `cancel` behaviour), so the three constructors below
cover every mutation of the registration data. -/

/-- One outside operation on the registry. -/
inductive ROp : Type where
  | add (fn : Nat)
  | disc (cid : Nat)
  | clear
deriving Repr, DecidableEq

def applyOp (st : CbState) : ROp → CbState
  | .add fn => addS st fn
  | .disc cid => (disconnectS st cid).1
  | .clear => clearS st

def runOps (st : CbState) (ops : List ROp) : CbState := ops.foldl applyOp st

/-- The connection ids handed out by the `add` operations of a run, in
order: `add` returns `{*this, slots_.back().id}` with the id allocated
as `++highestID_`. -/
def issuedIds : CbState → List ROp → List Nat
  | _, [] => []
  | st, .add fn :: rest => (st.highestID + 1) :: issuedIds (addS st fn) rest
  | st, op :: rest => issuedIds (applyOp st op) rest

/-- Ids of the slots that are still live (a reset id, value 0, is the
invalid/none value). -/
def liveIds (st : CbState) : List Nat := (st.slots.map Slot.id).filter (· ≠ 0)

/-! Model of `TrackedConnectionID` (connection.hpp): the id value lives
in a shared cell (`std::shared_ptr<std::size_t>`); every copy of the id
holds the same cell.  Cells live in a small heap `Store` independent of
any registry — the cell is kept alive by the handles that share it, so
the model keeps the heap around no matter what happens to the registry.
`reset()` writes 0 through the pointer if it is nonnull, then nulls the
own pointer; `valid()` is `value && *value`. -/

abbrev Store := Nat → Nat

/-- A `TrackedConnectionID`: a possibly-null pointer to a shared cell. -/
structure TrackedID : Type where
  cell : Option Nat

/-- Model of `TrackedConnectionID::valid`. -/
def tValid (store : Store) (t : TrackedID) : Bool :=
  match t.cell with
  | none => false
  | some a => store a ≠ 0

/-- Model of `TrackedConnectionID::reset`: zero the shared cell (if the pointer
is nonnull), then drop the own reference. -/
def tReset (store : Store) (t : TrackedID) : Store × TrackedID :=
  match t.cell with
  | none => (store, ⟨none⟩)
  | some a => (fun x => if x = a then 0 else store x, ⟨none⟩)

/-- A slot of a tracked callback as far as teardown is concerned: the
cell address of its `TrackedConnectionID` and its function token. -/
structure TSlot : Type where
  cell : Nat
  fn : Nat

/-- Model of the destructor of `Callback`: walk the slot chain and `reset()` each slot
id — for the tracked flavour this zeroes each shared cell.  The second
component lists the listener functions invoked during teardown: the
destructor never calls `slot.func`, so it is `[]` by construction. -/
def dtorCallback (store : Store) (slots : List TSlot) : Store × List Nat :=
  (slots.foldl (fun s sl => fun x => if x = sl.cell then 0 else s x) store, [])

/-! Model of `UniqueConnectionT` (connection.hpp).  The snapshot is
halfway through renaming the pointer member (`connectable_` in the
declarations, `conn_` in the definitions); both spellings denote the one
pointer-to-connectable member, modelled as the flag `hasConn` (the
registry object itself stays abstract).  `disconnect()` forwards to the
connectable exactly when the pointer is nonnull, then nulls the pointer
and resets the stored id; the destructor runs `disconnect()` inside
try/catch (an error is written to stderr and swallowed — same state
effect); `release()` empties the guard without forwarding. -/

structure UCState : Type where
  hasConn : Bool
  cid : Nat
deriving Repr, DecidableEq

inductive UOp : Type where
  | disc
  | dtor
  | release
deriving Repr, DecidableEq

/-- Model of `UniqueConnectionT::disconnect`.  Second component: the ids whose
cancellation was forwarded to the connectable by this step. -/
def uDisconnect (st : UCState) : UCState × List Nat :=
  (⟨false, 0⟩, if st.hasConn then [st.cid] else [])

def uApply (st : UCState) : UOp → UCState × List Nat
  | .disc => uDisconnect st
  | .dtor => uDisconnect st
  | .release => (⟨false, 0⟩, [])

/-- All cancellations a sequence of guard operations forwards to the
connectable. -/
def uRun : UCState → List UOp → List Nat
  | _, [] => []
  | st, op :: rest =>
    let r := uApply st op
    r.2 ++ uRun r.1 rest

/-! ## Claims about `disconnect`, the dispatch loop and `clear` that are
settled by evaluating the model on concrete registries. -/

/-- Claim C1: the spec says `disconnect(id)` returns true exactly when a
live entry with that id existed, in particular when the matched entry is
the first of the list.  The code disagrees: the `// first` branch of
`Callback::disconnect` unlinks and releases the head slot but falls
through without `return true`; the subsequent scan cannot find the id
again and the function returns false.  Here: a registry whose single
live slot has id 1; `disconnect 1` removes that slot yet returns
false. -/
theorem c1_disconnect_of_first_entry_returns_false :
    (⟨1, [⟨1, 1, 0⟩], []⟩ : CbState).slots.map Slot.id = [1] ∧
    disconnectS ⟨1, [⟨1, 1, 0⟩], []⟩ 1 = (⟨1, [], []⟩, false) :=
  ⟨rfl, rfl⟩

/-- Claim C2, counterexample: a single registered listener whose
invocation raises.  Before the call the frame chain is empty; after the
propagated failure the frame pushed by `call` is still at the front of
the chain (`current` already bumped to 1), because
`iter = stackIter.above` is only executed on the normal exit path —
there is no scope guard in `detail::CallbackCall`.  So the
innermost-frame pointer is not restored on this exit path. -/
theorem c2_raise_leaves_frame_pushed :
    (⟨1, [⟨1, 1, 9⟩], []⟩ : CbState).frames = [] ∧
    callS (fun _ _ => Act.raise) 2 ⟨1, [⟨1, 1, 9⟩], []⟩ 0 =
      some (⟨1, [⟨1, 1, 9⟩], [⟨1, none⟩]⟩, [(1, 0)], Except.error ()) :=
  ⟨rfl, rfl⟩

/-- Claim C3: the spec says the cursor bump ahead of the invocation makes
a listener cancelling its own entry harmless for the rest of the
traversal.  The code disagrees: `disconnect` of the head slot unlinks it,
shifting every index down by one, and `checkErase` only rewrites the
`next` pointer field of the frames — a field the index-driven loop of
`detail::CallbackCall` never reads — so the bumped index now lands one
entry too far.  Here: listeners with ids 1, 2, 3 where the first cancels
its own id during the call; the trace shows ids 1 and 3 invoked and
listener 2 silently skipped, and the returned sequence is [1, 3]. -/
theorem c3_self_cancel_during_call_skips_next_listener :
    callS (fun fn _ => if fn = 1 then Act.cancel 1 (Act.ret 1) else Act.ret fn) 10
        ⟨3, [⟨1, 1, 1⟩, ⟨2, 2, 2⟩, ⟨3, 3, 3⟩], []⟩ 0 =
      some (⟨3, [⟨2, 2, 2⟩, ⟨3, 3, 3⟩], []⟩, [(1, 0), (3, 0)], Except.ok [1, 3]) :=
  rfl

/-- Claim C6, counterexample: `clear()` resets the slot ids and drops the
chain but never touches `callIter_`: a frame whose cursor pointer field
targets the sole slot still targets it after `clearS`, while a single
cancellation of the same slot (`disconnectS`) redirects that cursor to
the successor (here: none).  So frames are not repaired by `clear` the
way single cancellation repairs them. -/
theorem c6_clear_does_not_repair_frames :
    clearS ⟨1, [⟨1, 1, 0⟩], [⟨0, some 1⟩]⟩ = ⟨1, [], [⟨0, some 1⟩]⟩ ∧
    (disconnectS ⟨1, [⟨1, 1, 0⟩], [⟨0, some 1⟩]⟩ 1).1.frames = [⟨0, none⟩] :=
  ⟨rfl, rfl⟩

/-- Claim C6 (amended): `clear()` resets every entry and empties the
registry — afterwards `disconnect` returns false for every id, so every
issued id is invalid — but it leaves the frame chain exactly as it was:
no cursor repair happens on this path. -/
theorem c6_clear_empties_registry_frames_untouched :
    ∀ st : CbState,
      (clearS st).slots = [] ∧ (clearS st).frames = st.frames ∧
      ∀ cid : Nat, (disconnectS (clearS st) cid).2 = false := by
  intro st
  refine ⟨rfl, rfl, ?_⟩
  intro cid
  by_cases hc : cid = 0 <;> simp [disconnectS, clearS, hc]

/-! ## Tracked connection ids -/

/-- Claim C8: zeroing the shared cell through any one tracked handle
makes every other handle sharing that cell report invalid, no matter
which copy performed the reset; the cell heap is independent of any
registry, so this holds whether or not the registry still exists. -/
theorem c8_tracked_cancel_invalidates_all_copies :
    ∀ (store : Store) (a : Nat) (t t' : TrackedID),
      t.cell = some a → t'.cell = some a →
      tValid (tReset store t).1 t' = false := by
  intro store a t t' h h'
  simp [tReset, h, tValid, h']

/-- Witness for claim C8 at a concrete heap and pair of handles. -/
theorem c8_tracked_cancel_witness :
    tValid (tReset (fun _ => 5) ⟨some 3⟩).1 ⟨some 3⟩ = false :=
  c8_tracked_cancel_invalidates_all_copies (fun _ => 5) 3 ⟨some 3⟩ ⟨some 3⟩ rfl rfl

/-! ## Unique connection guards -/

/-- Once the guard pointer is null, no later operation forwards
anything. -/
theorem uRun_disarmed : ∀ (ops : List UOp) (c : Nat), uRun ⟨false, c⟩ ops = [] := by
  intro ops
  induction ops with
  | nil => intro c; rfl
  | cons op rest ih =>
    intro c
    cases op <;> simpa [uRun, uApply, uDisconnect] using ih 0

/-- Claim C9: over any sequence of destructions, `disconnect()` calls and
releases, a unique connection guard forwards at most one cancellation to
its connectable, and that one only if the guard actually held a
connection, for the id it held; the first forwarding operation clears
the guard, so everything after it is a no-op. -/
theorem c9_unique_guard_cancels_at_most_once :
    ∀ (st : UCState) (ops : List UOp),
      (uRun st ops).length ≤ 1 ∧
      ∀ i ∈ uRun st ops, i = st.cid ∧ st.hasConn = true := by
  intro st ops
  cases ops with
  | nil => simp [uRun]
  | cons op rest =>
    cases op <;> cases hc : st.hasConn <;>
      simp [uRun, uApply, uDisconnect, hc, uRun_disarmed]

/-- Witness for claim C9: a held guard, disconnected twice then
destroyed, forwarded the cancellation of its id exactly once. -/
theorem c9_unique_guard_witness : (7 : Nat) = 7 ∧ (UCState.mk true 7).hasConn = true :=
  (c9_unique_guard_cancels_at_most_once ⟨true, 7⟩ [UOp.disc, UOp.disc, UOp.dtor]).2 7
    (by decide)

/-! ## Registry teardown and tracked handles -/

/-- Zeroed cells stay zero under the teardown walk. -/
theorem dtor_preserves_zero :
    ∀ (slots : List TSlot) (store : Store) (a : Nat),
      store a = 0 → (dtorCallback store slots).1 a = 0 := by
  intro slots
  induction slots with
  | nil => intro store a h; exact h
  | cons sl rest ih =>
    intro store a h
    have h1 : (fun x => if x = sl.cell then 0 else store x) a = 0 := by
      by_cases hx : a = sl.cell <;> simp [hx, h]
    simpa [dtorCallback] using ih _ a h1

/-- Every cell of a registered slot is zero after teardown. -/
theorem dtor_cell_zero :
    ∀ (slots : List TSlot) (store : Store) (a : Nat),
      a ∈ slots.map TSlot.cell → (dtorCallback store slots).1 a = 0 := by
  intro slots
  induction slots with
  | nil => intro store a h; simp at h
  | cons sl rest ih =>
    intro store a h
    rcases List.mem_cons.mp h with h | h
    · have h1 : (fun x => if x = sl.cell then 0 else store x) a = 0 := by simp [h]
      simpa [dtorCallback] using
        dtor_preserves_zero rest (fun x => if x = sl.cell then 0 else store x) a h1
    · simpa [dtorCallback] using ih (fun x => if x = sl.cell then 0 else store x) a h

/-- Claim C10: destroying the callback resets the id of every registered
slot and never invokes a listener, so every surviving tracked handle to
one of those registrations reports not-connected afterwards. -/
theorem c10_registry_dtor_invalidates_tracked_handles :
    ∀ (store : Store) (slots : List TSlot) (t : TrackedID) (a : Nat),
      t.cell = some a → a ∈ slots.map TSlot.cell →
      tValid (dtorCallback store slots).1 t = false ∧
      (dtorCallback store slots).2 = [] := by
  intro store slots t a ht hmem
  have h0 : (dtorCallback store slots).1 a = 0 := dtor_cell_zero slots store a hmem
  constructor
  · simp [tValid, ht, h0]
  · simp [dtorCallback]

/-- Witness for claim C10 at a concrete heap, registry and handle. -/
theorem c10_registry_dtor_witness :
    tValid (dtorCallback (fun _ => 5) [⟨2, 0⟩, ⟨3, 1⟩]).1 ⟨some 3⟩ = false ∧
    (dtorCallback (fun _ => 5) [⟨2, 0⟩, ⟨3, 1⟩]).2 = [] :=
  c10_registry_dtor_invalidates_tracked_handles (fun _ => 5) [⟨2, 0⟩, ⟨3, 1⟩] ⟨some 3⟩ 3
    rfl (by decide)

/-! ## Id allocation invariants -/

theorem disc_highest (st : CbState) (cid : Nat) :
    (disconnectS st cid).1.highestID = st.highestID := by
  unfold disconnectS
  split
  · rfl
  · split
    · rfl
    · rfl

/-- Adding an element in front of a list only enlarges the filtered
list, as a sublist. -/
theorem filter_sublist_cons (p : Nat → Bool) (a : Nat) (l : List Nat) :
    List.Sublist (l.filter p) ((a :: l).filter p) :=
  (List.sublist_cons_self a l).filter p

/-- The scan loop of `disconnect` only ever zeroes one id (of the
predecessor of the matched node); the live ids of the resulting chain
form a sublist of the previous live ids. -/
theorem discIter_live_sub (cid : Nat) (l : List Slot) :
    List.Sublist (((discIter cid l).1.map Slot.id).filter (· ≠ 0))
      ((l.map Slot.id).filter (· ≠ 0)) := by
  induction l with
  | nil => simp [discIter]
  | cons s l2 ih =>
    cases l2 with
    | nil => simp [discIter]
    | cons t rest =>
      by_cases ht : t.id = cid
      · simp only [discIter, if_pos ht]
        have h0 : (({ s with id := 0 } : Slot) :: t :: rest).map Slot.id =
            0 :: (t :: rest).map Slot.id := by simp
        rw [h0]
        have h1 : ((0 : Nat) :: (t :: rest).map Slot.id).filter (· ≠ 0) =
            ((t :: rest).map Slot.id).filter (· ≠ 0) := by simp
        rw [h1]
        have h2 : (s :: t :: rest).map Slot.id = s.id :: (t :: rest).map Slot.id := by simp
        rw [h2]
        exact filter_sublist_cons _ s.id _
      · simp only [discIter, if_neg ht]
        have h2 : (s :: (discIter cid (t :: rest)).1).map Slot.id =
            s.id :: ((discIter cid (t :: rest)).1).map Slot.id := by simp
        have h3 : (s :: t :: rest).map Slot.id = s.id :: ((t :: rest).map Slot.id) := by simp
        rw [h2, h3]
        by_cases hs : s.id = 0
        · rw [hs]
          have h4 : ∀ X : List Nat, ((0 : Nat) :: X).filter (· ≠ 0) = X.filter (· ≠ 0) := by
            intro X
            simp
          rw [h4, h4]
          exact ih
        · have h5 : ∀ X : List Nat, (s.id :: X).filter (· ≠ 0) = s.id :: X.filter (· ≠ 0) := by
            intro X
            simp [List.filter_cons, hs]
          rw [h5, h5]
          exact ih.cons₂ s.id

/-- Disconnect can only shrink the set of live ids (as a sublist). -/
theorem live_disc_sub (st : CbState) (cid : Nat) :
    List.Sublist (liveIds (disconnectS st cid).1) (liveIds st) := by
  unfold disconnectS
  split
  · exact List.Sublist.refl _
  · split
    · exact List.Sublist.refl _
    · rename_i s rest heq
      by_cases hid : s.id = cid
      · simp only [liveIds, hid, if_pos rfl, heq]
        exact (discIter_live_sub cid rest).trans
          (by simpa using filter_sublist_cons (fun x => decide (x ≠ 0)) s.id (rest.map Slot.id))
      · simp only [liveIds, if_neg hid, heq]
        exact discIter_live_sub cid (s :: rest)

/-- Registry well-formedness: the live ids are strictly increasing along
the chain and bounded by the allocation counter. -/
def goodCb (st : CbState) : Prop :=
  (liveIds st).Pairwise (· < ·) ∧ ∀ i ∈ liveIds st, i ≤ st.highestID

theorem good_empty : goodCb emptyCb := by
  constructor <;> simp [liveIds, emptyCb]

theorem live_add (st : CbState) (fn : Nat) :
    liveIds (addS st fn) = liveIds st ++ [st.highestID + 1] := by
  simp [liveIds, addS, List.filter_append, List.filter_cons]

theorem good_add (st : CbState) (fn : Nat) (h : goodCb st) : goodCb (addS st fn) := by
  obtain ⟨hp, hb⟩ := h
  constructor
  · rw [live_add, List.pairwise_append]
    refine ⟨hp, by simp, ?_⟩
    intro a ha b hb2
    simp at hb2
    have := hb a ha
    omega
  · intro i hi
    rw [live_add] at hi
    rcases List.mem_append.mp hi with hi | hi
    · have := hb i hi
      simp [addS]
      omega
    · simp at hi
      simp [addS, hi]

theorem good_disc (st : CbState) (cid : Nat) (h : goodCb st) :
    goodCb (disconnectS st cid).1 := by
  obtain ⟨hp, hb⟩ := h
  have hs := live_disc_sub st cid
  constructor
  · exact hp.sublist hs
  · intro i hi
    rw [disc_highest]
    exact hb i (hs.subset hi)

theorem good_clear (st : CbState) (_h : goodCb st) : goodCb (clearS st) := by
  constructor <;> simp [liveIds, clearS]

theorem good_run (ops : List ROp) : ∀ st : CbState, goodCb st → goodCb (runOps st ops) := by
  induction ops with
  | nil => intro st h; exact h
  | cons op rest ih =>
    intro st h
    have h1 : goodCb (applyOp st op) := by
      cases op with
      | add fn => exact good_add st fn h
      | disc cid => exact good_disc st cid h
      | clear => exact good_clear st h
    simpa [runOps, List.foldl] using ih (applyOp st op) h1

/-- The ids returned by the `add` operations of a run are strictly
increasing and all above the allocation counter at the start of the
run. -/
theorem issued_mono (ops : List ROp) :
    ∀ st : CbState,
      (issuedIds st ops).Pairwise (· < ·) ∧
      ∀ i ∈ issuedIds st ops, st.highestID < i := by
  induction ops with
  | nil => intro st; simp [issuedIds]
  | cons op rest ih =>
    intro st
    cases op with
    | add fn =>
      obtain ⟨hp, hgt⟩ := ih (addS st fn)
      have hh : (addS st fn).highestID = st.highestID + 1 := rfl
      constructor
      · rw [issuedIds]
        refine List.Pairwise.cons ?_ hp
        intro b hb
        have := hgt b hb
        omega
      · intro i hi
        rw [issuedIds] at hi
        rcases List.mem_cons.mp hi with hi | hi
        · omega
        · have := hgt i hi
          omega
    | disc cid =>
      obtain ⟨hp, hgt⟩ := ih (applyOp st (.disc cid))
      refine ⟨hp, ?_⟩
      intro i hi
      have := hgt i hi
      have hh : (applyOp st (.disc cid)).highestID = st.highestID := disc_highest st cid
      omega
    | clear =>
      obtain ⟨hp, hgt⟩ := ih (applyOp st .clear)
      refine ⟨hp, ?_⟩
      intro i hi
      exact hgt i hi

/-- Claim C7: along any sequence of registry operations starting from a
fresh callback, the connection ids issued by `add` are strictly
increasing, never zero and never repeated, and at every instant the ids
of the live entries are pairwise distinct. -/
theorem c7_issued_ids_increasing_nonzero_live_distinct :
    ∀ ops : List ROp,
      (issuedIds emptyCb ops).Pairwise (· < ·) ∧
      (∀ i ∈ issuedIds emptyCb ops, i ≠ 0) ∧
      (issuedIds emptyCb ops).Nodup ∧
      (liveIds (runOps emptyCb ops)).Nodup := by
  intro ops
  obtain ⟨hp, hgt⟩ := issued_mono ops emptyCb
  have hgood := good_run ops emptyCb good_empty
  refine ⟨hp, ?_, hp.imp Nat.ne_of_lt, hgood.1.imp Nat.ne_of_lt⟩
  intro i hi
  have := hgt i hi
  simp [emptyCb] at this
  omega

/-- Witness for claim C7 applied to a concrete run: the first issued id
is nonzero. -/
theorem c7_issued_ids_witness : (1 : Nat) ≠ 0 :=
  (c7_issued_ids_increasing_nonzero_live_distinct [ROp.add 5, ROp.add 6]).2.1 1 (by decide)

/-! ## Frame-stack balance of the dispatch -/

theorem disc_frames_len (st : CbState) (cid : Nat) :
    (disconnectS st cid).1.frames.length = st.frames.length := by
  unfold disconnectS
  split
  · rfl
  · split
    · rfl
    · rename_i s rest heq
      by_cases hid : s.id = cid <;> simp [hid, checkEraseAll]

theorem bump_len (l : List CallIter) : (bumpHead l).length = l.length := by
  cases l <;> rfl

/-- On every run that returns normally, each of the three interpreter
layers leaves the frame chain with the length it found: `callS` pops the
frame it pushed, the loop only bumps the cursor of its own frame, and a
listener behaviour that ends in a value has balanced any nested call it
made. -/
theorem frames_ok :
    ∀ fuel : Nat,
      (∀ (env : Env) (st : CbState) (a : Act) (st' : CbState) (tr : List (Nat × Nat)) (v : Nat),
        runAct env fuel st a = some (st', tr, Except.ok v) →
        st'.frames.length = st.frames.length) ∧
      (∀ (env : Env) (st : CbState) (arg : Nat) (st' : CbState) (tr : List (Nat × Nat))
        (rs : List Nat),
        callS env fuel st arg = some (st', tr, Except.ok rs) →
        st'.frames.length = st.frames.length) ∧
      (∀ (env : Env) (st : CbState) (arg : Nat) (acc : List Nat) (tr : List (Nat × Nat))
        (st' : CbState) (tr' : List (Nat × Nat)) (rs : List Nat),
        loopS env fuel st arg acc tr = some (st', tr', Except.ok rs) →
        st'.frames.length = st.frames.length) := by
  intro fuel
  induction fuel with
  | zero =>
    refine ⟨?_, ?_, ?_⟩
    · intro env st a st' tr v h
      cases a with
      | ret w =>
        simp only [runAct, Option.some.injEq, Prod.mk.injEq, Except.ok.injEq] at h
        rw [← h.1]
      | raise => simp [runAct] at h
      | cancel cid k => simp [runAct] at h
      | nest narg k => simp [runAct] at h
    · intro env st arg st' tr rs h
      simp [callS] at h
    · intro env st arg acc tr st' tr' rs h
      rw [loopS] at h
      split at h
      · simp at h
      · simp only [Option.some.injEq, Prod.mk.injEq, Except.ok.injEq] at h
        rw [← h.1]
  | succ f ih =>
    obtain ⟨ihA, ihB, ihC⟩ := ih
    refine ⟨?_, ?_, ?_⟩
    · intro env st a st' tr v h
      cases a with
      | ret w =>
        simp only [runAct, Option.some.injEq, Prod.mk.injEq, Except.ok.injEq] at h
        rw [← h.1]
      | raise => simp [runAct] at h
      | cancel cid k =>
        have hstep : runAct env (f + 1) st (.cancel cid k) =
            runAct env f (disconnectS st cid).1 k := rfl
        rw [hstep] at h
        rw [ihA env (disconnectS st cid).1 k st' tr v h, disc_frames_len]
      | nest narg k =>
        have hstep : runAct env (f + 1) st (.nest narg k) =
            match callS env f st narg with
            | none => none
            | some (st1, tr1, Except.error e) => some (st1, tr1, Except.error e)
            | some (st1, tr1, Except.ok _) =>
              match runAct env f st1 k with
              | none => none
              | some (st2, tr2, r) => some (st2, tr1 ++ tr2, r) := rfl
        rw [hstep] at h
        split at h
        · simp at h
        · simp at h
        · rename_i st1 tr1 w heq
          split at h
          · simp at h
          · rename_i st2 tr2 r2 heq2
            simp only [Option.some.injEq, Prod.mk.injEq] at h
            obtain ⟨h1, -, h3⟩ := h
            rw [h3] at heq2
            rw [← h1, ihA env st1 k st2 tr2 v heq2]
            exact ihB env st narg st1 tr1 w heq
    · intro env st arg st' tr rs h
      have hstep : callS env (f + 1) st arg =
          match loopS env f ({ st with frames := ⟨0, none⟩ :: st.frames }) arg [] [] with
          | none => none
          | some (st2, tr2, Except.error e) => some (st2, tr2, Except.error e)
          | some (st2, tr2, Except.ok rs2) =>
            some ({ st2 with frames := st2.frames.tail }, tr2, Except.ok rs2) := rfl
      rw [hstep] at h
      cases hl : loopS env f ({ st with frames := ⟨0, none⟩ :: st.frames }) arg [] [] with
      | none => rw [hl] at h; simp at h
      | some o =>
        obtain ⟨st2, tr2, r2⟩ := o
        rw [hl] at h
        cases r2 with
        | error e => simp at h
        | ok rs2 =>
          simp only [Option.some.injEq, Prod.mk.injEq, Except.ok.injEq] at h
          obtain ⟨h1, -, -⟩ := h
          have hlen := ihC env _ arg [] [] st2 tr2 rs2 hl
          simp only at hlen
          rw [← h1]
          simp only [List.length_tail]
          simp at hlen
          omega
    · intro env st arg acc tr st' tr' rs h
      have hstep : loopS env (f + 1) st arg acc tr =
          if headIdx st < st.slots.length then
            match runAct env f { st with frames := bumpHead st.frames }
                (env (st.slots.getD (headIdx st) ⟨0, 0, 0⟩).fn arg) with
            | none => none
            | some (st2, tr2, Except.error e) =>
              some (st2, tr ++ ((st.slots.getD (headIdx st) ⟨0, 0, 0⟩).id, arg) :: tr2,
                Except.error e)
            | some (st2, tr2, Except.ok v) =>
              loopS env f st2 arg (acc ++ [v])
                (tr ++ ((st.slots.getD (headIdx st) ⟨0, 0, 0⟩).id, arg) :: tr2)
          else some (st, tr, Except.ok acc) := rfl
      rw [hstep] at h
      split at h
      · cases hr : runAct env f { st with frames := bumpHead st.frames }
            (env (st.slots.getD (headIdx st) ⟨0, 0, 0⟩).fn arg) with
        | none => rw [hr] at h; simp at h
        | some o =>
          obtain ⟨st2, tr2, r2⟩ := o
          rw [hr] at h
          cases r2 with
          | error e => simp at h
          | ok v =>
            have h2 := ihC env st2 arg (acc ++ [v])
              (tr ++ ((st.slots.getD (headIdx st) ⟨0, 0, 0⟩).id, arg) :: tr2) st' tr' rs h
            have h3 := ihA env { st with frames := bumpHead st.frames }
              (env (st.slots.getD (headIdx st) ⟨0, 0, 0⟩).fn arg) st2 tr2 v hr
            simp only [bump_len] at h3
            omega
      · simp only [Option.some.injEq, Prod.mk.injEq, Except.ok.injEq] at h
        rw [← h.1]

/-- Claim C2 (amended): the frame pushed by `call` is popped again on
every normal exit, also across nested calls and cancellations performed
by the listeners; when a listener invocation raises, however, the
failure propagates without the frame being popped (see the
counterexample), so restoration holds only for non-exceptional exits. -/
theorem c2_frame_popped_on_every_normal_exit :
    ∀ (env : Env) (fuel : Nat) (st : CbState) (arg : Nat) (st' : CbState)
      (tr : List (Nat × Nat)) (rs : List Nat),
      callS env fuel st arg = some (st', tr, Except.ok rs) →
      st'.frames.length = st.frames.length :=
  fun env fuel st arg st' tr rs h => (frames_ok fuel).2.1 env st arg st' tr rs h

/-- Witness for the amended claim C2 on a concrete successful call. -/
theorem c2_frame_popped_witness :
    (CbState.mk 1 [⟨1, 1, 0⟩] []).frames.length = (CbState.mk 1 [⟨1, 1, 0⟩] []).frames.length :=
  c2_frame_popped_on_every_normal_exit (fun _ _ => Act.ret 5) 3 ⟨1, [⟨1, 1, 0⟩], []⟩ 0
    ⟨1, [⟨1, 1, 0⟩], []⟩ [(1, 0)] [5] rfl

/-! ## Dispatch over pure listeners -/

/-- Unfolding of one loop round. -/
theorem loopS_succ (env : Env) (f : Nat) (st : CbState) (arg : Nat) (acc : List Nat)
    (tr : List (Nat × Nat)) :
    loopS env (f + 1) st arg acc tr =
      if headIdx st < st.slots.length then
        match runAct env f { st with frames := bumpHead st.frames }
            (env (st.slots.getD (headIdx st) ⟨0, 0, 0⟩).fn arg) with
        | none => none
        | some (st2, tr2, Except.error e) =>
          some (st2, tr ++ ((st.slots.getD (headIdx st) ⟨0, 0, 0⟩).id, arg) :: tr2,
            Except.error e)
        | some (st2, tr2, Except.ok v) =>
          loopS env f st2 arg (acc ++ [v])
            (tr ++ ((st.slots.getD (headIdx st) ⟨0, 0, 0⟩).id, arg) :: tr2)
      else some (st, tr, Except.ok acc) := rfl

theorem getD_append_len :
    ∀ (pre : List Slot) (s : Slot) (rest : List Slot) (d : Slot),
      (pre ++ s :: rest).getD pre.length d = s := by
  intro pre
  induction pre with
  | nil => intro s rest d; rfl
  | cons p pre ih =>
    intro s rest d
    simpa [List.getD_cons_succ] using ih s rest d

/-- The slot chain produced by a run of `add` operations starting at
allocation counter `h`: each node carries the freshly allocated id as
its id and as its model address. -/
def newSlots : Nat → List Nat → List Slot
  | _, [] => []
  | h, fn :: rest => ⟨h + 1, h + 1, fn⟩ :: newSlots (h + 1) rest

theorem newSlots_length : ∀ (fns : List Nat) (h : Nat), (newSlots h fns).length = fns.length := by
  intro fns
  induction fns with
  | nil => intro h; rfl
  | cons fn rest ih => intro h; simpa [newSlots] using ih (h + 1)

theorem newSlots_fn_mem :
    ∀ (fns : List Nat) (h : Nat) (s : Slot), s ∈ newSlots h fns → s.fn ∈ fns := by
  intro fns
  induction fns with
  | nil => intro h s hs; simp [newSlots] at hs
  | cons fn rest ih =>
    intro h s hs
    rcases List.mem_cons.mp hs with hs | hs
    · rw [hs]
      exact List.mem_cons_self fn rest
    · exact List.mem_cons_of_mem fn (ih (h + 1) s hs)

/-- A registry built by registering `fns`, in order, on a fresh
callback. -/
def buildS (fns : List Nat) : CbState := fns.foldl addS emptyCb

theorem build_aux :
    ∀ (fns : List Nat) (st : CbState),
      fns.foldl addS st =
        ⟨st.highestID + fns.length, st.slots ++ newSlots st.highestID fns, st.frames⟩ := by
  intro fns
  induction fns with
  | nil =>
    intro st
    simp [newSlots]
  | cons fn rest ih =>
    intro st
    have h1 : (fn :: rest).foldl addS st = rest.foldl addS (addS st fn) := rfl
    rw [h1, ih (addS st fn)]
    simp [addS, newSlots]
    omega

theorem build_eq (fns : List Nat) : buildS fns = ⟨fns.length, newSlots 0 fns, []⟩ := by
  have := build_aux fns emptyCb
  simpa [buildS, emptyCb] using this

/-- Dispatch over a suffix of pure listeners: starting with the cursor
at the end of `pre`, the loop visits every slot of `suffix` once, in
chain order, passing each slot its own id, collecting the returned
values in order, and ends with the cursor one past the end. -/
theorem loop_pure :
    ∀ (suffix pre : List Slot) (env : Env) (g : Nat → Nat) (arg hid : Nat)
      (np : Option Nat) (frs : List CallIter) (acc : List Nat) (tr : List (Nat × Nat))
      (fuel : Nat),
      (∀ s ∈ suffix, env s.fn arg = Act.ret (g s.fn)) →
      suffix.length ≤ fuel →
      loopS env fuel ⟨hid, pre ++ suffix, ⟨pre.length, np⟩ :: frs⟩ arg acc tr =
        some (⟨hid, pre ++ suffix, ⟨pre.length + suffix.length, np⟩ :: frs⟩,
          tr ++ suffix.map (fun s => (s.id, arg)),
          Except.ok (acc ++ suffix.map (fun s => g s.fn))) := by
  intro suffix
  induction suffix with
  | nil =>
    intro pre env g arg hid np frs acc tr fuel _ _
    rw [loopS.eq_def]
    have hc : ¬ (headIdx (⟨hid, pre ++ [], ⟨pre.length, np⟩ :: frs⟩ : CbState) <
        ((⟨hid, pre ++ [], ⟨pre.length, np⟩ :: frs⟩ : CbState)).slots.length) := by
      simp [headIdx]
    rw [if_neg hc]
    simp
  | cons s rest ih =>
    intro pre env g arg hid np frs acc tr fuel hpure hfuel
    have hf1 : rest.length + 1 ≤ fuel := by simpa using hfuel
    obtain ⟨f, rfl⟩ : ∃ f, fuel = f + 1 := ⟨fuel - 1, by omega⟩
    have hc : headIdx (⟨hid, pre ++ s :: rest, ⟨pre.length, np⟩ :: frs⟩ : CbState) <
        ((⟨hid, pre ++ s :: rest, ⟨pre.length, np⟩ :: frs⟩ : CbState)).slots.length := by
      simp [headIdx]
    rw [loopS_succ, if_pos hc]
    have hidx : headIdx (⟨hid, pre ++ s :: rest, ⟨pre.length, np⟩ :: frs⟩ : CbState) =
        pre.length := rfl
    simp only [hidx]
    rw [getD_append_len]
    have hbump : ({ (⟨hid, pre ++ s :: rest, ⟨pre.length, np⟩ :: frs⟩ : CbState) with
        frames := bumpHead (⟨pre.length, np⟩ :: frs) } : CbState) =
        ⟨hid, pre ++ s :: rest, ⟨pre.length + 1, np⟩ :: frs⟩ := rfl
    rw [hbump]
    rw [hpure s (List.mem_cons_self s rest)]
    have hrun : ∀ fl : Nat,
        runAct env fl ⟨hid, pre ++ s :: rest, ⟨pre.length + 1, np⟩ :: frs⟩
          (Act.ret (g s.fn)) =
          some (⟨hid, pre ++ s :: rest, ⟨pre.length + 1, np⟩ :: frs⟩, [],
            Except.ok (g s.fn)) := by
      intro fl
      cases fl <;> rfl
    rw [hrun f]
    show loopS env f ⟨hid, pre ++ s :: rest, ⟨pre.length + 1, np⟩ :: frs⟩ arg
        (acc ++ [g s.fn]) (tr ++ (s.id, arg) :: []) =
      some (⟨hid, pre ++ s :: rest, ⟨pre.length + (s :: rest).length, np⟩ :: frs⟩,
        tr ++ (s :: rest).map (fun u => (u.id, arg)),
        Except.ok (acc ++ (s :: rest).map (fun u => g u.fn)))
    have hstate : (⟨hid, pre ++ s :: rest, ⟨pre.length + 1, np⟩ :: frs⟩ : CbState) =
        ⟨hid, (pre ++ [s]) ++ rest, ⟨(pre ++ [s]).length, np⟩ :: frs⟩ := by
      simp
    rw [hstate]
    have hrest : ∀ u ∈ rest, env u.fn arg = Act.ret (g u.fn) := fun u hu =>
      hpure u (List.mem_cons_of_mem s hu)
    rw [ih (pre ++ [s]) env g arg hid np frs (acc ++ [g s.fn]) (tr ++ (s.id, arg) :: []) f
      hrest (by omega)]
    simp [List.append_assoc]
    omega

/-- Dispatch over a registry of pure listeners: every slot is visited
once, in chain order, and the call returns the values in that order,
with the registry and the frame chain left as found. -/
theorem call_pure :
    ∀ (env : Env) (g : Nat → Nat) (arg hid : Nat) (slots : List Slot)
      (frs : List CallIter) (fuel : Nat),
      (∀ s ∈ slots, env s.fn arg = Act.ret (g s.fn)) →
      slots.length + 1 ≤ fuel →
      callS env fuel ⟨hid, slots, frs⟩ arg =
        some (⟨hid, slots, frs⟩, slots.map (fun s => (s.id, arg)),
          Except.ok (slots.map (fun s => g s.fn))) := by
  intro env g arg hid slots frs fuel hp hf
  obtain ⟨f, rfl⟩ : ∃ f, fuel = f + 1 := ⟨fuel - 1, by omega⟩
  have hstep : callS env (f + 1) ⟨hid, slots, frs⟩ arg =
      match loopS env f (⟨hid, slots, ⟨0, none⟩ :: frs⟩ : CbState) arg [] [] with
      | none => none
      | some (st2, tr2, Except.error e) => some (st2, tr2, Except.error e)
      | some (st2, tr2, Except.ok rs2) =>
        some ({ st2 with frames := st2.frames.tail }, tr2, Except.ok rs2) := rfl
  rw [hstep]
  have hloop := loop_pure slots [] env g arg hid none frs [] [] f hp (by omega)
  simp only [List.nil_append, List.length_nil] at hloop
  rw [hloop]
  simp

/-- Claim C4: firing a registry built by a sequence of registrations,
with every listener pure (cancelling nothing), invokes every listener
live at the start exactly once, in registration order — the trace is
exactly the chain ids in order — and returns their results in that same
order. -/
theorem c4_call_visits_all_live_in_order :
    ∀ (fns : List Nat) (g : Nat → Nat → Nat) (arg fuel : Nat),
      fns.length + 1 ≤ fuel →
      callS (fun fn a => Act.ret (g fn a)) fuel (buildS fns) arg =
        some (buildS fns, (newSlots 0 fns).map (fun s => (s.id, arg)),
          Except.ok ((newSlots 0 fns).map (fun s => g s.fn arg))) := by
  intro fns g arg fuel hf
  rw [build_eq]
  exact call_pure (fun fn a => Act.ret (g fn a)) (fun fn => g fn arg) arg fns.length
    (newSlots 0 fns) [] fuel (fun s _ => rfl) (by rw [newSlots_length]; omega)

/-- Witness for claim C4: three listeners, returning their token plus
the argument, all visited in order. -/
theorem c4_call_visits_witness :
    callS (fun fn a => Act.ret (fn + a)) 4 (buildS [10, 20, 30]) 5 =
      some (buildS [10, 20, 30], (newSlots 0 [10, 20, 30]).map (fun s => (s.id, 5)),
        Except.ok ((newSlots 0 [10, 20, 30]).map (fun s => s.fn + 5))) :=
  c4_call_visits_all_live_in_order [10, 20, 30] (fun fn a => fn + a) 5 4 (by decide)

/-! ## Nested dispatch -/

theorem runAct_ret (env : Env) (fl : Nat) (st : CbState) (w : Nat) :
    runAct env fl st (Act.ret w) = some (st, [], Except.ok w) := by
  cases fl <;> rfl

/-- A listener table for the nesting scenario: listener token 1, when
invoked with the outer argument `a0`, reenters `call` with the inner
argument `a1` and then returns its value; every other invocation is
pure. -/
def env5 (a0 a1 : Nat) (g : Nat → Nat → Nat) : Env := fun fn arg =>
  if fn = 1 ∧ arg = a0 then Act.nest a1 (Act.ret (g fn arg)) else Act.ret (g fn arg)

/-- Claim C5: with listener 1 triggering a nested call (with a distinct
argument) and the remaining listeners pure, the outer dispatch first
invokes listener 1, then the complete nested traversal runs — every
slot, in order, with the inner argument — and only then does the outer
cursor move on, visiting the remaining listeners exactly as a pure
dispatch would, with the outer argument. -/
theorem c5_nested_call_completes_before_outer_resumes :
    ∀ (fns : List Nat) (a0 a1 : Nat) (g : Nat → Nat → Nat) (fuel : Nat),
      a1 ≠ a0 → 1 ∉ fns → fns.length + 5 ≤ fuel →
      callS (env5 a0 a1 g) fuel (buildS (1 :: fns)) a0 =
        some (buildS (1 :: fns),
          (1, a0) :: ((newSlots 0 (1 :: fns)).map (fun s => (s.id, a1)) ++
            (newSlots 1 fns).map (fun s => (s.id, a0))),
          Except.ok (g 1 a0 :: (newSlots 1 fns).map (fun s => g s.fn a0))) := by
  intro fns a0 a1 g fuel hne hfn hfuel
  obtain ⟨f2, rfl⟩ : ∃ f2, fuel = fns.length + 2 + f2 + 3 :=
    ⟨fuel - (fns.length + 5), by omega⟩
  rw [build_eq]
  have hS : newSlots 0 (1 :: fns) = ⟨1, 1, 1⟩ :: newSlots 1 fns := rfl
  rw [hS]
  have hpure1 : ∀ s ∈ (⟨1, 1, 1⟩ : Slot) :: newSlots 1 fns,
      env5 a0 a1 g s.fn a1 = Act.ret ((fun fn => g fn a1) s.fn) := by
    intro s _
    simp only [env5]
    rw [if_neg]
    exact fun h => hne h.2
  have hpure0 : ∀ s ∈ newSlots 1 fns,
      env5 a0 a1 g s.fn a0 = Act.ret ((fun fn => g fn a0) s.fn) := by
    intro s hs
    have hmem : s.fn ∈ fns := newSlots_fn_mem fns 1 s hs
    simp only [env5]
    rw [if_neg]
    exact fun h => hfn (h.1 ▸ hmem)
  have hstep : callS (env5 a0 a1 g) (fns.length + 2 + f2 + 3)
      (⟨(1 :: fns).length, ⟨1, 1, 1⟩ :: newSlots 1 fns, []⟩ : CbState) a0 =
      match loopS (env5 a0 a1 g) (fns.length + 2 + f2 + 2)
          (⟨(1 :: fns).length, ⟨1, 1, 1⟩ :: newSlots 1 fns, [⟨0, none⟩]⟩ : CbState)
          a0 [] [] with
      | none => none
      | some (st2, tr2, Except.error e) => some (st2, tr2, Except.error e)
      | some (st2, tr2, Except.ok rs2) =>
        some ({ st2 with frames := st2.frames.tail }, tr2, Except.ok rs2) := rfl
  rw [hstep]
  have hc : headIdx (⟨(1 :: fns).length, ⟨1, 1, 1⟩ :: newSlots 1 fns,
      [⟨0, none⟩]⟩ : CbState) <
      ((⟨(1 :: fns).length, ⟨1, 1, 1⟩ :: newSlots 1 fns, [⟨0, none⟩]⟩ : CbState)).slots.length := by
    simp [headIdx]
  rw [loopS_succ, if_pos hc]
  have hidx : headIdx (⟨(1 :: fns).length, ⟨1, 1, 1⟩ :: newSlots 1 fns,
      [⟨0, none⟩]⟩ : CbState) = 0 := rfl
  simp only [hidx]
  have hget : ((⟨1, 1, 1⟩ : Slot) :: newSlots 1 fns).getD 0 ⟨0, 0, 0⟩ = ⟨1, 1, 1⟩ := rfl
  rw [hget]
  have henv1 : env5 a0 a1 g (1 : Nat) a0 = Act.nest a1 (Act.ret (g 1 a0)) := by
    simp [env5]
  rw [henv1]
  have hbump : ({ (⟨(1 :: fns).length, ⟨1, 1, 1⟩ :: newSlots 1 fns,
      [⟨0, none⟩]⟩ : CbState) with
      frames := bumpHead [⟨0, none⟩] } : CbState) =
      ⟨(1 :: fns).length, ⟨1, 1, 1⟩ :: newSlots 1 fns, [⟨1, none⟩]⟩ := rfl
  rw [hbump]
  have hstep2 : runAct (env5 a0 a1 g) (fns.length + 2 + f2 + 1)
      (⟨(1 :: fns).length, ⟨1, 1, 1⟩ :: newSlots 1 fns, [⟨1, none⟩]⟩ : CbState)
      (Act.nest a1 (Act.ret (g 1 a0))) =
      match callS (env5 a0 a1 g) (fns.length + 2 + f2)
          (⟨(1 :: fns).length, ⟨1, 1, 1⟩ :: newSlots 1 fns, [⟨1, none⟩]⟩ : CbState) a1 with
      | none => none
      | some (st', tr, Except.error e) => some (st', tr, Except.error e)
      | some (st', tr, Except.ok _) =>
        match runAct (env5 a0 a1 g) (fns.length + 2 + f2) st' (Act.ret (g 1 a0)) with
        | none => none
        | some (st'', tr', r) => some (st'', tr ++ tr', r) := rfl
  rw [hstep2]
  have hinner := call_pure (env5 a0 a1 g) (fun fn => g fn a1) a1 ((1 :: fns).length)
    ((⟨1, 1, 1⟩ : Slot) :: newSlots 1 fns) [⟨1, none⟩] (fns.length + 2 + f2) hpure1
    (by simp [newSlots_length]; try omega)
  rw [hinner]
  simp only [runAct_ret]
  show (match loopS (env5 a0 a1 g) (fns.length + 2 + f2 + 1)
        (⟨(1 :: fns).length, ⟨1, 1, 1⟩ :: newSlots 1 fns, [⟨1, none⟩]⟩ : CbState) a0
        [g 1 a0]
        ((1, a0) ::
          ((((⟨1, 1, 1⟩ : Slot) :: newSlots 1 fns).map (fun s => (s.id, a1))) ++ [])) with
      | none => none
      | some (st2, tr2, Except.error e) => some (st2, tr2, Except.error e)
      | some (st2, tr2, Except.ok rs2) =>
        some ({ st2 with frames := st2.frames.tail }, tr2, Except.ok rs2)) =
    some (⟨(1 :: fns).length, ⟨1, 1, 1⟩ :: newSlots 1 fns, []⟩,
      (1, a0) :: (((⟨1, 1, 1⟩ : Slot) :: newSlots 1 fns).map (fun s => (s.id, a1)) ++
        (newSlots 1 fns).map (fun s => (s.id, a0))),
      Except.ok (g 1 a0 :: (newSlots 1 fns).map (fun s => g s.fn a0)))
  have hfin := loop_pure (newSlots 1 fns) [⟨1, 1, 1⟩] (env5 a0 a1 g) (fun fn => g fn a0)
    a0 ((1 :: fns).length) none [] [g 1 a0]
    ((1, a0) :: ((((⟨1, 1, 1⟩ : Slot) :: newSlots 1 fns).map (fun s => (s.id, a1))) ++ []))
    (fns.length + 2 + f2 + 1) hpure0 (by simp [newSlots_length]; try omega)
  simp only [List.singleton_append, List.length_singleton] at hfin
  rw [hfin]
  simp [List.append_assoc]

/-- Witness for claim C5: three listeners, listener 1 nesting a call
with argument 7 inside the outer call with argument 0. -/
theorem c5_nested_call_witness :
    callS (env5 0 7 (fun fn a => 100 * fn + a)) 7 (buildS [1, 2, 3]) 0 =
      some (buildS [1, 2, 3],
        (1, 0) :: ((newSlots 0 [1, 2, 3]).map (fun s => (s.id, 7)) ++
          (newSlots 1 [2, 3]).map (fun s => (s.id, 0))),
        Except.ok ((100 * 1 + 0) :: (newSlots 1 [2, 3]).map (fun s => 100 * s.fn + 0))) :=
  c5_nested_call_completes_before_outer_resumes [2, 3] 0 7 (fun fn a => 100 * fn + a) 7
    (by decide) (by decide) (by decide)

end NytlCb
